import Mathlib

/-
Verification of the WowDBC native extension (src/ext/wow_dbc/wow_dbc.c),
a schema-driven codec and mutable in-memory table for the DBC binary
format: a 20-byte header, a block of fixed-width records whose field
types come from a caller-supplied schema, and a trailing string block of
packed null-terminated strings referenced by byte offset.

Modelling conventions (shallow embedding of the C code):
- Bytes are `Nat` values (well-formed streams have every byte < 256);
  the four u32 header fields and every 4-byte record cell are read and
  written little-endian, matching the platform representation the C
  `fread`/`fwrite` of the packed structs uses.
- The 4-byte union inside `FieldValue` is modelled as its raw 32-bit
  contents (`bits : Nat`); `uint32_value`, `int32_value`, `float_value`
  and `string_offset` are the four reinterpretations of those bits.
  A C `float` is carried as its 32-bit IEEE-754 pattern; storage,
  retrieval and equality act on the pattern, and the cross-numeric
  coercions (`NUM2UINT`/`NUM2INT` truncating a Ruby Float toward zero,
  `NUM2DBL` rounding a Ruby Integer through double into the float)
  interpret the pattern by explicit arithmetic.
- Ruby values crossing the extension boundary are `RValue`:
  `Integer`s (`UINT2NUM`/`INT2NUM` results and arguments),
  `Float`s (carried as the 32-bit pattern of the underlying C float),
  and `String`s (byte lists, the result of `rb_str_new2`).
- Ruby exceptions are the explicit `DBCError` outcome; mutating methods
  return the post-call table state together with an optional error, so
  partial in-place mutation before a raise is observable, exactly as it
  is through the Ruby object.
- A C array whose allocated size always equals the loop bound that scans
  it (`records` with `record_count` rows of `field_count` cells, and
  `string_block` with `string_block_size` bytes) is modelled as the
  corresponding list; the header keeps the numeric fields the C struct
  stores, and `record_count` arithmetic is `% 2 ^ 32` where the C does
  uint32 arithmetic.
- `field_definitions` is the Ruby hash passed to `initialize`: an
  ordered association list with unique keys whose values are already
  valid field-type symbols (`ruby_to_field_type` on a stored value
  always succeeds).
-/

namespace WowDBC

/-- The C `FieldType` enum: TYPE_UINT32, TYPE_INT32, TYPE_FLOAT, TYPE_STRING.
`memset 0` of a `FieldValue` yields tag 0, i.e. `uint32`. -/
inductive FieldType where
  | uint32
  | int32
  | float
  | string
  deriving DecidableEq, Repr, Inhabited

/-- The C `FieldValue` struct: a type tag plus the 4-byte union, kept as
its raw 32-bit contents. -/
structure FieldValue where
  type : FieldType
  bits : Nat
  deriving DecidableEq, Repr, Inhabited

/-- The zero `FieldValue` produced by `memset(..., 0, ...)`. -/
def zeroFV : FieldValue := ⟨FieldType.uint32, 0⟩

/-- The C `DBCHeader` struct: `char magic[4]` plus four `uint32_t` fields
(20 bytes, no padding). -/
structure DBCHeader where
  magic : List Nat
  record_count : Nat
  field_count : Nat
  record_size : Nat
  string_block_size : Nat
  deriving DecidableEq, Repr

/-- The C `DBCFile` struct: header, record rows, string block bytes and
the field-definitions hash (ordered name/type pairs). -/
structure DBCFile where
  header : DBCHeader
  records : List (List FieldValue)
  string_block : List Nat
  field_definitions : List (String × FieldType)
  deriving DecidableEq, Repr

/-- Ruby exceptions the C code raises (`rb_raise` sites), by exception
class and message. -/
inductive DBCError where
  | ioError (msg : String)
  | argError (msg : String)
  | typeError (msg : String)
  | rangeError (msg : String)
  deriving DecidableEq, Repr

/-- Ruby values crossing the extension boundary. A Ruby `Float` built
from a C `float` is carried as the 32-bit pattern of that float. -/
inductive RValue where
  | int (n : Int)
  | flt (bits : Nat)
  | str (bytes : List Nat)
  deriving DecidableEq, Repr

/-- Reinterpret 32 stored bits as the C `int32_t` union member. -/
def toInt32 (bits : Nat) : Int :=
  if bits < 2 ^ 31 then (bits : Int) else (bits : Int) - 2 ^ 32

/-- `rb_str_new2(&string_block[off])`: the bytes from `off` up to the
first zero byte. An offset at or past the end of the block reads out of
bounds in C (undefined behavior); the model yields the bytes that remain
inside the block, so such an offset resolves to a (possibly empty)
string rather than an error. -/
def cString (block : List Nat) (off : Nat) : List Nat :=
  (block.drop off).takeWhile (fun b => b ≠ 0)

/-- `field_value_to_ruby`: convert a stored field to the Ruby value the
extension returns, resolving string offsets through the string block. -/
def field_value_to_ruby (v : FieldValue) (string_block : List Nat) : RValue :=
  match v.type with
  | FieldType.uint32 => RValue.int v.bits
  | FieldType.int32 => RValue.int (toInt32 v.bits)
  | FieldType.float => RValue.flt v.bits
  | FieldType.string => RValue.str (cString string_block v.bits)

/-- Truncation toward zero of the IEEE-754 single with the given 32
bits, as CRuby's `rb_num2long`/`rb_num2ulong` apply it to a `T_FLOAT`
(the C cast `(long)double`); `none` for NaN and the infinities, which
those macros reject with `RangeError`. Sign bit, biased exponent and
mantissa are decoded by plain arithmetic; a subnormal or any magnitude
below 1 truncates to 0. -/
def truncFloat32 (bits : Nat) : Option Int :=
  let s := bits / 2 ^ 31 % 2
  let e := bits / 2 ^ 23 % 2 ^ 8
  let m := bits % 2 ^ 23
  if e = 255 then none
  else
    let mag : Nat :=
      if e = 0 then 0
      else if e < 150 then (2 ^ 23 + m) / 2 ^ (150 - e)
      else (2 ^ 23 + m) * 2 ^ (e - 150)
    some (if s = 1 then -(mag : Int) else (mag : Int))

/-- Round a positive natural to at most `p` significant bits, ties to
even (the IEEE-754 default rounding applied by a C numeric cast). -/
def roundSig (p : Nat) (n : Nat) : Nat :=
  if n < 2 ^ p then n
  else
    let k := Nat.log2 n + 1 - p
    let q := n / 2 ^ k
    let r := n % 2 ^ k
    let h := 2 ^ (k - 1)
    let q2 := if h < r then q + 1 else if r < h then q else if q % 2 = 0 then q else q + 1
    q2 * 2 ^ k

/-- `(float)NUM2DBL(n)` for a Ruby Integer `n`: round to the nearest
double (exact below `2^53`), then cast to the nearest float, yielding
the 32 stored bits; either stage can overflow to infinity. Integers of
magnitude ≥ 1 land in the float's normal range, so the bits are sign,
biased exponent from the bit length, and the 23 mantissa bits. -/
def intToFloat32Bits (n : Int) : Nat :=
  let s : Nat := if n < 0 then 2 ^ 31 else 0
  let a := n.natAbs
  if a = 0 then 0
  else
    let d := roundSig 53 a
    if 2 ^ 1024 ≤ d then s + 255 * 2 ^ 23
    else
      let f := roundSig 24 d
      if 2 ^ 128 ≤ f then s + 255 * 2 ^ 23
      else
        let L := Nat.log2 f + 1
        if L ≤ 24 then s + (L - 1 + 127) * 2 ^ 23 + (f * 2 ^ (24 - L) - 2 ^ 23)
        else s + (L - 1 + 127) * 2 ^ 23 + (f / 2 ^ (L - 24) - 2 ^ 23)

/-- `NUM2UINT`: a Ruby Integer is accepted when it lies in
`[-2^31, 2^32-1]` (`rb_num2ulong` then `check_uint`: a negative value
must be at least `INT_MIN` and sign-wraps into the uint32, a
nonnegative one at most `UINT_MAX`); a Ruby Float is truncated toward
zero and the truncation is range-checked the same way; anything else is
a `TypeError`. The result is the 32 stored bits, i.e. the accepted
value mod `2^32`. -/
def num2uint (v : RValue) : Except DBCError Nat :=
  match v with
  | RValue.int n =>
    if -(2 ^ 31) ≤ n ∧ n < 2 ^ 32 then Except.ok ((n % 2 ^ 32).toNat)
    else Except.error (DBCError.rangeError "integer out of range for uint32")
  | RValue.flt b =>
    match truncFloat32 b with
    | none => Except.error (DBCError.rangeError "float out of range of integer")
    | some n =>
      if -(2 ^ 31) ≤ n ∧ n < 2 ^ 32 then Except.ok ((n % 2 ^ 32).toNat)
      else Except.error (DBCError.rangeError "float out of range for uint32")
  | RValue.str _ => Except.error (DBCError.typeError "no implicit conversion into Integer")

/-- `NUM2INT`: as `num2uint` but `check_int` demands
`[-2^31, 2^31-1]`; Floats are truncated toward zero first. The result
is the 32 stored bits (two's complement for negatives). -/
def num2int (v : RValue) : Except DBCError Nat :=
  match v with
  | RValue.int n =>
    if -(2 ^ 31) ≤ n ∧ n < 2 ^ 31 then Except.ok ((n % 2 ^ 32).toNat)
    else Except.error (DBCError.rangeError "integer out of range for int32")
  | RValue.flt b =>
    match truncFloat32 b with
    | none => Except.error (DBCError.rangeError "float out of range of integer")
    | some n =>
      if -(2 ^ 31) ≤ n ∧ n < 2 ^ 31 then Except.ok ((n % 2 ^ 32).toNat)
      else Except.error (DBCError.rangeError "float out of range for int32")
  | RValue.str _ => Except.error (DBCError.typeError "no implicit conversion into Integer")

/-- `(float)NUM2DBL`: a Ruby Float keeps its bits (its double value is
exactly a float's value in this model, so the cast back is the
identity); a Ruby Integer is rounded through double to float
(`intToFloat32Bits`); anything else is a `TypeError`. -/
def num2fltbits (v : RValue) : Except DBCError Nat :=
  match v with
  | RValue.int n => Except.ok (intToFloat32Bits n)
  | RValue.flt b => Except.ok b
  | RValue.str _ => Except.error (DBCError.typeError "no implicit conversion into Float")

/-- `ruby_to_field_value`: coerce a Ruby value into a stored field of
the declared type — `NUM2UINT` for uint32 fields and StringRef offsets,
`NUM2INT` for int32 fields, `NUM2DBL` plus the cast to C `float` for
float fields. The coercions are cross-numeric exactly as the CRuby
macros are: Floats truncate into the integer kinds, Integers round into
the float kind. -/
def ruby_to_field_value (v : RValue) (t : FieldType) : Except DBCError FieldValue :=
  match t with
  | FieldType.uint32 =>
    match num2uint v with
    | Except.error e => Except.error e
    | Except.ok bits => Except.ok ⟨FieldType.uint32, bits⟩
  | FieldType.int32 =>
    match num2int v with
    | Except.error e => Except.error e
    | Except.ok bits => Except.ok ⟨FieldType.int32, bits⟩
  | FieldType.float =>
    match num2fltbits v with
    | Except.error e => Except.error e
    | Except.ok bits => Except.ok ⟨FieldType.float, bits⟩
  | FieldType.string =>
    match num2uint v with
    | Except.error e => Except.error e
    | Except.ok bits => Except.ok ⟨FieldType.string, bits⟩

/-- Read one little-endian `uint32_t` from the byte stream, returning
the value and the remaining bytes (`fread(..., sizeof(uint32_t), 1, f)`). -/
def readU32 : List Nat → Option (Nat × List Nat)
  | b0 :: b1 :: b2 :: b3 :: rest =>
    some (b0 + 256 * b1 + 65536 * b2 + 16777216 * b3, rest)
  | _ => none

/-- Write one `uint32_t` as four little-endian bytes. -/
def encodeU32 (n : Nat) : List Nat :=
  [n % 256, n / 256 % 256, n / 65536 % 256, n / 16777216 % 256]

/-- `keys[j]` of the field-definitions hash (`Qnil`, i.e. `none`, past
the end). -/
def fieldNameAt (schema : List (String × FieldType)) (j : Nat) : Option String :=
  (schema[j]?).map Prod.fst

/-- `rb_hash_aref(field_definitions, name)` followed by
`ruby_to_field_type` (stored type symbols are assumed valid, see header
comment); `none` means the hash lookup produced `Qnil` and
`ruby_to_field_type` would raise `TypeError`. -/
def lookupFieldType (schema : List (String × FieldType)) (name : String) : Option FieldType :=
  List.lookup name schema

/-- `fieldNameAt` then `lookupFieldType`: the declared type of column
`j`, the way `dbc_read` and the create loop obtain it. -/
def fieldTypeAtIdx (schema : List (String × FieldType)) (j : Nat) : Option FieldType :=
  match fieldNameAt schema j with
  | none => none
  | some name => lookupFieldType schema name

/-- The inner loop of `dbc_read`: starting at column `j`, read the given
number of 4-byte cells, tagging cell `j` with the schema's declared type
for column `j` (`TypeError` when the schema has no column `j`, `IOError`
on a short read). -/
def readCellsAux (schema : List (String × FieldType)) (j : Nat) :
    Nat → List Nat → Except DBCError (List FieldValue × List Nat)
  | 0, l => Except.ok ([], l)
  | Nat.succ k, l =>
    match fieldTypeAtIdx schema j with
    | none => Except.error (DBCError.typeError "Field type must be a symbol or string")
    | some t =>
      match readU32 l with
      | none => Except.error (DBCError.ioError "Failed to read DBC record field")
      | some (bits, rest) =>
        match readCellsAux schema (j + 1) k rest with
        | Except.error e => Except.error e
        | Except.ok (vs, rest2) => Except.ok (FieldValue.mk t bits :: vs, rest2)

/-- The outer loop of `dbc_read`: read the given number of records, each
of `fc` cells. -/
def readRecordsAux (schema : List (String × FieldType)) (fc : Nat) :
    Nat → List Nat → Except DBCError (List (List FieldValue) × List Nat)
  | 0, l => Except.ok ([], l)
  | Nat.succ k, l =>
    match readCellsAux schema 0 fc l with
    | Except.error e => Except.error e
    | Except.ok (rec, rest) =>
      match readRecordsAux schema fc k rest with
      | Except.error e => Except.error e
      | Except.ok (rs, rest2) => Except.ok (rec :: rs, rest2)

/-- `dbc_read`: decode a byte stream against the field definitions into
a populated `DBCFile`. The header (magic plus four u32 fields) is read
first — note that the magic bytes are stored but never validated — then
`record_count` records of `field_count` cells, then exactly
`string_block_size` string-block bytes; bytes beyond that are ignored.
Short reads raise `IOError`, a column with no schema entry raises
`TypeError`. -/
def dbc_read (schema : List (String × FieldType)) (bytes : List Nat) :
    Except DBCError DBCFile :=
  match bytes with
  | m0 :: m1 :: m2 :: m3 :: afterMagic =>
    match readU32 afterMagic with
    | none => Except.error (DBCError.ioError "Failed to read DBC header")
    | some (rc, r1) =>
      match readU32 r1 with
      | none => Except.error (DBCError.ioError "Failed to read DBC header")
      | some (fc, r2) =>
        match readU32 r2 with
        | none => Except.error (DBCError.ioError "Failed to read DBC header")
        | some (rs, r3) =>
          match readU32 r3 with
          | none => Except.error (DBCError.ioError "Failed to read DBC header")
          | some (sbs, r4) =>
            match readRecordsAux schema fc rc r4 with
            | Except.error e => Except.error e
            | Except.ok (records, r5) =>
              if sbs ≤ r5.length then
                Except.ok ⟨⟨[m0, m1, m2, m3], rc, fc, rs, sbs⟩, records, r5.take sbs, schema⟩
              else Except.error (DBCError.ioError "Failed to read DBC string block")
  | _ => Except.error (DBCError.ioError "Failed to read DBC header")

/-- The record-field write loop body: one record's cells as bytes. -/
def writeCells (rec : List FieldValue) : List Nat :=
  rec.flatMap (fun v => encodeU32 v.bits)

/-- The header bytes `dbc_write` emits: the stored `DBCHeader` struct,
verbatim. -/
def encodeHeader (h : DBCHeader) : List Nat :=
  h.magic ++ encodeU32 h.record_count ++ encodeU32 h.field_count ++
    encodeU32 h.record_size ++ encodeU32 h.string_block_size

/-- `dbc_write` (and the byte-identical `dbc_write_to`): the stored
header, then every record's cells in order, then the string block. -/
def dbc_write (dbc : DBCFile) : List Nat :=
  encodeHeader dbc.header ++ dbc.records.flatMap writeCells ++ dbc.string_block

/-- The linear name search shared by `dbc_update_record`,
`dbc_update_record_multi` and `dbc_find_by`: the first position of
`name` among the field-definition keys (`-1`, i.e. `none`, if absent). -/
def findFieldIdx (schema : List (String × FieldType)) (name : String) : Option Nat :=
  schema.findIdx? (fun p => p.1 == name)

/-- Overwrite cell `fi` of record `idx` in the records storage. -/
def setCell (records : List (List FieldValue)) (idx fi : Nat) (fv : FieldValue) :
    List (List FieldValue) :=
  records.set idx ((records.getD idx []).set fi fv)

/-- `dbc_create_record`: append a zero-filled record (`memset 0`, so
every cell is tag `uint32`, bits 0), bump `record_count` (uint32
arithmetic) and return the new record's index `new_count - 1` (uint32
arithmetic; at `record_count = 2^32 - 1` the C reallocation to zero
entries and the `records[-1]` store are undefined behavior, the model
just appends). -/
def dbc_create_record (dbc : DBCFile) : DBCFile × Nat :=
  let new_count := (dbc.header.record_count + 1) % 2 ^ 32
  ({ dbc with
      records := dbc.records ++ [List.replicate dbc.header.field_count zeroFV],
      header := { dbc.header with record_count := new_count } },
    (new_count + 2 ^ 32 - 1) % 2 ^ 32)

/-- `dbc_update_record`: look up the field position, check record index
and field position bounds, coerce the value to the declared type and
overwrite the one cell. On any raise the table is unchanged. -/
def dbc_update_record (dbc : DBCFile) (index : Int) (field_name : String)
    (value : RValue) : DBCFile × Option DBCError :=
  match findFieldIdx dbc.field_definitions field_name with
  | none => (dbc, some (DBCError.argError "Invalid record or field index"))
  | some fi =>
    if index < 0 ∨ dbc.header.record_count ≤ index.toNat ∨ dbc.header.field_count ≤ fi then
      (dbc, some (DBCError.argError "Invalid record or field index"))
    else
      match lookupFieldType dbc.field_definitions field_name with
      | none => (dbc, some (DBCError.typeError "Field type must be a symbol or string"))
      | some t =>
        match ruby_to_field_value value t with
        | Except.error e => (dbc, some e)
        | Except.ok fv => ({ dbc with records := setCell dbc.records index.toNat fi fv }, none)

/-- One row of `dbc_get_record`'s result hash: for each column index
below `field_count`, the key `keys[i]` (`none` models a `Qnil` key when
the schema is shorter than `field_count`) mapped to the converted,
string-resolved field value. -/
def recordToHash (schema : List (String × FieldType)) (fc : Nat)
    (rec : List FieldValue) (block : List Nat) : List (Option String × RValue) :=
  (List.range fc).map (fun i => (fieldNameAt schema i, field_value_to_ruby (rec.getD i zeroFV) block))

/-- `dbc_get_record`: bounds-check the index, then build the field-name
to value hash, resolving string offsets through the string block. There
is no bounds check on string offsets and no error path past the index
check. -/
def dbc_get_record (dbc : DBCFile) (index : Int) :
    Except DBCError (List (Option String × RValue)) :=
  if index < 0 ∨ dbc.header.record_count ≤ index.toNat then
    Except.error (DBCError.argError "Invalid record index")
  else
    Except.ok (recordToHash dbc.field_definitions dbc.header.field_count
      (dbc.records.getD index.toNat []) dbc.string_block)

/-- The loop of `dbc_update_record_multi` over the update hash's
key/value pairs, in hash order: each valid key is applied immediately;
the first invalid key (absent from the schema or at a position at or
past `field_count`) raises, leaving the earlier updates applied. -/
def updMultiLoop (dbc : DBCFile) (idx : Nat) :
    List (String × RValue) → DBCFile × Option DBCError
  | [] => (dbc, none)
  | (key, value) :: rest =>
    match findFieldIdx dbc.field_definitions key with
    | none => (dbc, some (DBCError.argError "Invalid field name"))
    | some fi =>
      if dbc.header.field_count ≤ fi then
        (dbc, some (DBCError.argError "Invalid field name"))
      else
        match lookupFieldType dbc.field_definitions key with
        | none => (dbc, some (DBCError.typeError "Field type must be a symbol or string"))
        | some t =>
          match ruby_to_field_value value t with
          | Except.error e => (dbc, some e)
          | Except.ok fv => updMultiLoop { dbc with records := setCell dbc.records idx fi fv } idx rest

/-- `dbc_update_record_multi`: bounds-check the record index, then apply
the updates hash pair by pair (see `updMultiLoop`). -/
def dbc_update_record_multi (dbc : DBCFile) (index : Int)
    (updates : List (String × RValue)) : DBCFile × Option DBCError :=
  if index < 0 ∨ dbc.header.record_count ≤ index.toNat then
    (dbc, some (DBCError.argError "Invalid record index"))
  else updMultiLoop dbc index.toNat updates

/-- `dbc_delete_record`: bounds-check the index, free the row, shift the
later rows down one slot (`memmove`) and decrement `record_count`. -/
def dbc_delete_record (dbc : DBCFile) (index : Int) : DBCFile × Option DBCError :=
  if index < 0 ∨ dbc.header.record_count ≤ index.toNat then
    (dbc, some (DBCError.argError "Invalid record index"))
  else
    ({ dbc with
        records := dbc.records.eraseIdx index.toNat,
        header := { dbc.header with record_count := dbc.header.record_count - 1 } },
      none)

/-- The scan loop of `dbc_find_by`: for each record in order, convert
the cell at the field position (resolving string offsets) and, when it
equals the probe value, emit the record's full hash. -/
def findByLoop (dbc : DBCFile) (fi : Nat) (value : RValue) :
    List (List FieldValue) → List (List (Option String × RValue))
  | [] => []
  | rec :: rest =>
    if field_value_to_ruby (rec.getD fi zeroFV) dbc.string_block = value then
      recordToHash dbc.field_definitions dbc.header.field_count rec dbc.string_block ::
        findByLoop dbc fi value rest
    else findByLoop dbc fi value rest

/-- `dbc_find_by`: resolve the field name to a position (raising
`ArgumentError` when absent or past `field_count`), then linearly scan
all records collecting, in table order, the hashes of those whose
converted value at that position equals the probe value. -/
def dbc_find_by (dbc : DBCFile) (field : String) (value : RValue) :
    Except DBCError (List (List (Option String × RValue))) :=
  match findFieldIdx dbc.field_definitions field with
  | none => Except.error (DBCError.argError "Invalid field name")
  | some fi =>
    if dbc.header.field_count ≤ fi then
      Except.error (DBCError.argError "Invalid field name")
    else Except.ok (findByLoop dbc fi value dbc.records)

/-- The loop of `dbc_create_record_with_values`: for each column index
`j` below `field_count`, fetch the value stored under `keys[j]` in the
supplied hash (a missing value — `Qnil` — raises the missing-field
`ArgumentError`; keys of the hash that are not schema field names are
never looked at), obtain the declared type and coerce. -/
def buildRecordAux (schema : List (String × FieldType)) (values : List (String × RValue))
    (j : Nat) : Nat → Except DBCError (List FieldValue)
  | 0 => Except.ok []
  | Nat.succ k =>
    match fieldNameAt schema j with
    | none => Except.error (DBCError.argError "Missing value for field")
    | some name =>
      match List.lookup name values with
      | none => Except.error (DBCError.argError "Missing value for field")
      | some v =>
        match lookupFieldType schema name with
        | none => Except.error (DBCError.typeError "Field type must be a symbol or string")
        | some t =>
          match ruby_to_field_value v t with
          | Except.error e => Except.error e
          | Except.ok fv =>
            match buildRecordAux schema values (j + 1) k with
            | Except.error e => Except.error e
            | Except.ok fvs => Except.ok (fv :: fvs)

/-- `dbc_create_record_with_values`: build the new record from the
values hash (see `buildRecordAux`); on success append it, bump
`record_count` (uint32 arithmetic) and return the new index. On a raise
`record_count` is untouched, so the observable table is unchanged (the
C has reallocated the row array, but the extra row is outside every
loop bound). -/
def dbc_create_record_with_values (dbc : DBCFile) (values : List (String × RValue)) :
    DBCFile × Except DBCError Nat :=
  match buildRecordAux dbc.field_definitions values 0 dbc.header.field_count with
  | Except.error e => (dbc, Except.error e)
  | Except.ok rec =>
    let new_count := (dbc.header.record_count + 1) % 2 ^ 32
    ({ dbc with
        records := dbc.records ++ [rec],
        header := { dbc.header with record_count := new_count } },
      Except.ok ((new_count + 2 ^ 32 - 1) % 2 ^ 32))

/-- The header metadata and state a mutation must not touch: everything
except `record_count` and the records themselves. -/
def metaOf (t : DBCFile) :
    List Nat × Nat × Nat × Nat × List Nat × List (String × FieldType) :=
  (t.header.magic, t.header.field_count, t.header.record_size,
    t.header.string_block_size, t.string_block, t.field_definitions)

/-! ### General lemmas about the byte-level codec -/

theorem writeCells_nil : writeCells [] = [] := rfl

theorem writeCells_cons (a : FieldValue) (vs : List FieldValue) :
    writeCells (a :: vs) = encodeU32 a.bits ++ writeCells vs := by
  simp [writeCells]

theorem encodeU32_length (n : Nat) : (encodeU32 n).length = 4 := rfl

theorem encodeU32_bytes {b0 b1 b2 b3 : Nat} (h0 : b0 < 256) (h1 : b1 < 256)
    (h2 : b2 < 256) (h3 : b3 < 256) :
    encodeU32 (b0 + 256 * b1 + 65536 * b2 + 16777216 * b3) = [b0, b1, b2, b3] := by
  unfold encodeU32
  have e0 : (b0 + 256 * b1 + 65536 * b2 + 16777216 * b3) % 256 = b0 := by omega
  have e1 : (b0 + 256 * b1 + 65536 * b2 + 16777216 * b3) / 256 % 256 = b1 := by omega
  have e2 : (b0 + 256 * b1 + 65536 * b2 + 16777216 * b3) / 65536 % 256 = b2 := by omega
  have e3 : (b0 + 256 * b1 + 65536 * b2 + 16777216 * b3) / 16777216 % 256 = b3 := by omega
  rw [e0, e1, e2, e3]

/-- Consuming one u32 and re-emitting it reproduces the consumed bytes. -/
theorem readU32_spec {l : List Nat} {n : Nat} {rest : List Nat}
    (h : readU32 l = some (n, rest)) (hb : ∀ b ∈ l, b < 256) :
    encodeU32 n ++ rest = l ∧ l.length = 4 + rest.length ∧ ∀ b ∈ rest, b < 256 := by
  match l with
  | [] => simp [readU32] at h
  | [b0] => simp [readU32] at h
  | [b0, b1] => simp [readU32] at h
  | [b0, b1, b2] => simp [readU32] at h
  | b0 :: b1 :: b2 :: b3 :: r =>
    simp only [readU32, Option.some.injEq, Prod.mk.injEq] at h
    obtain ⟨hn, hr⟩ := h
    subst hn
    subst hr
    refine ⟨?_, by simp only [List.length_cons]; omega, fun b hbr => hb b (by simp [hbr])⟩
    have h0 : b0 < 256 := hb b0 (by simp)
    have h1 : b1 < 256 := hb b1 (by simp)
    have h2 : b2 < 256 := hb b2 (by simp)
    have h3 : b3 < 256 := hb b3 (by simp)
    rw [encodeU32_bytes h0 h1 h2 h3]
    rfl

/-- Consuming the cells of one record and re-emitting them reproduces
the consumed bytes; the record has exactly as many cells as requested. -/
theorem readCellsAux_spec (schema : List (String × FieldType)) :
    ∀ (k j : Nat) (l : List Nat) (vs : List FieldValue) (rest : List Nat),
      readCellsAux schema j k l = Except.ok (vs, rest) →
      (∀ b ∈ l, b < 256) →
      writeCells vs ++ rest = l ∧ vs.length = k ∧
        l.length = 4 * k + rest.length ∧ ∀ b ∈ rest, b < 256
  | 0, j, l, vs, rest, h, hb => by
    simp only [readCellsAux, Except.ok.injEq, Prod.mk.injEq] at h
    obtain ⟨h1, h2⟩ := h
    subst h1
    subst h2
    exact ⟨by simp [writeCells], rfl, by simp, hb⟩
  | Nat.succ k, j, l, vs, rest, h, hb => by
    simp only [readCellsAux] at h
    cases hft : fieldTypeAtIdx schema j with
    | none => rw [hft] at h; simp at h
    | some t =>
      rw [hft] at h
      simp only [] at h
      cases hru : readU32 l with
      | none => rw [hru] at h; simp at h
      | some p =>
        obtain ⟨bits, lrest⟩ := p
        rw [hru] at h
        simp only [] at h
        cases hrc : readCellsAux schema (j + 1) k lrest with
        | error e => rw [hrc] at h; simp at h
        | ok q =>
          obtain ⟨vs2, rest2⟩ := q
          rw [hrc] at h
          simp only [] at h
          simp only [Except.ok.injEq, Prod.mk.injEq] at h
          obtain ⟨hvs, hrest⟩ := h
          obtain ⟨henc, hlen, hbr⟩ := readU32_spec hru hb
          obtain ⟨hw, hl, hll, hbb⟩ := readCellsAux_spec schema k (j + 1) lrest vs2 rest2 hrc hbr
          subst hvs
          subst hrest
          refine ⟨?_, by simp [hl], by omega, hbb⟩
          rw [writeCells_cons, List.append_assoc, hw]
          exact henc

/-- Consuming a block of records and re-emitting them reproduces the
consumed bytes; there are exactly as many records as requested, each
with `fc` cells. -/
theorem readRecordsAux_spec (schema : List (String × FieldType)) (fc : Nat) :
    ∀ (k : Nat) (l : List Nat) (rs : List (List FieldValue)) (rest : List Nat),
      readRecordsAux schema fc k l = Except.ok (rs, rest) →
      (∀ b ∈ l, b < 256) →
      rs.flatMap writeCells ++ rest = l ∧ rs.length = k ∧
        (∀ r ∈ rs, r.length = fc) ∧
        l.length = 4 * fc * k + rest.length ∧ ∀ b ∈ rest, b < 256
  | 0, l, rs, rest, h, hb => by
    simp only [readRecordsAux, Except.ok.injEq, Prod.mk.injEq] at h
    obtain ⟨h1, h2⟩ := h
    subst h1
    subst h2
    exact ⟨by simp, rfl, by simp, by simp, hb⟩
  | Nat.succ k, l, rs, rest, h, hb => by
    simp only [readRecordsAux] at h
    cases hrc : readCellsAux schema 0 fc l with
    | error e => rw [hrc] at h; simp at h
    | ok p =>
      obtain ⟨rec, lrest⟩ := p
      rw [hrc] at h
      simp only [] at h
      cases hrr : readRecordsAux schema fc k lrest with
      | error e => rw [hrr] at h; simp at h
      | ok q =>
        obtain ⟨rs2, rest2⟩ := q
        rw [hrr] at h
        simp only [] at h
        simp only [Except.ok.injEq, Prod.mk.injEq] at h
        obtain ⟨hrs, hrest⟩ := h
        obtain ⟨hw1, hl1, hll1, hb1⟩ := readCellsAux_spec schema fc 0 l rec lrest hrc hb
        obtain ⟨hw2, hl2, hfc2, hll2, hb2⟩ :=
          readRecordsAux_spec schema fc k lrest rs2 rest2 hrr hb1
        subst hrs
        subst hrest
        have hmul : 4 * fc * Nat.succ k = 4 * fc * k + 4 * fc := by
          rw [Nat.succ_eq_add_one, Nat.mul_add, Nat.mul_one]
        refine ⟨?_, by simp [hl2], ?_, by omega, hb2⟩
        · rw [List.flatMap_cons, List.append_assoc, hw2]
          exact hw1
        · intro r hr
          rcases List.mem_cons.mp hr with h | h
          · subst h; exact hl1
          · exact hfc2 r h

/-! ### C1: encode after decode is the identity on well-formed streams -/

/-- C1: for every well-formed byte stream — every byte below 256 and the
stream exactly `20 + record_count * field_count * 4 + string_block_size`
bytes long, consistent with the schema so that `dbc_read` succeeds —
encoding the decoded table with `dbc_write` yields exactly the original
byte stream. (No mutation happens between the two calls, so in
particular no StringRef offset is touched.) -/
theorem c1_roundtrip (schema : List (String × FieldType)) (bytes : List Nat)
    (t : DBCFile) (h : dbc_read schema bytes = Except.ok t)
    (hb : ∀ b ∈ bytes, b < 256)
    (hlen : bytes.length =
      20 + t.header.record_count * t.header.field_count * 4 + t.header.string_block_size) :
    dbc_write t = bytes := by
  match bytes with
  | [] => simp [dbc_read] at h
  | [m0] => simp [dbc_read] at h
  | [m0, m1] => simp [dbc_read] at h
  | [m0, m1, m2] => simp [dbc_read] at h
  | m0 :: m1 :: m2 :: m3 :: afterMagic =>
    simp only [dbc_read] at h
    have hbA : ∀ b ∈ afterMagic, b < 256 := fun b hm => hb b (by simp [hm])
    cases h1 : readU32 afterMagic with
    | none => rw [h1] at h; simp at h
    | some p1 =>
      obtain ⟨rc, r1⟩ := p1
      rw [h1] at h
      simp only [] at h
      obtain ⟨e1, l1, hb1⟩ := readU32_spec h1 hbA
      cases h2 : readU32 r1 with
      | none => rw [h2] at h; simp at h
      | some p2 =>
        obtain ⟨fc, r2⟩ := p2
        rw [h2] at h
        simp only [] at h
        obtain ⟨e2, l2, hb2⟩ := readU32_spec h2 hb1
        cases h3 : readU32 r2 with
        | none => rw [h3] at h; simp at h
        | some p3 =>
          obtain ⟨rsz, r3⟩ := p3
          rw [h3] at h
          simp only [] at h
          obtain ⟨e3, l3, hb3⟩ := readU32_spec h3 hb2
          cases h4 : readU32 r3 with
          | none => rw [h4] at h; simp at h
          | some p4 =>
            obtain ⟨sbs, r4⟩ := p4
            rw [h4] at h
            simp only [] at h
            obtain ⟨e4, l4, hb4⟩ := readU32_spec h4 hb3
            cases h5 : readRecordsAux schema fc rc r4 with
            | error e => rw [h5] at h; simp at h
            | ok p5 =>
              obtain ⟨records, r5⟩ := p5
              rw [h5] at h
              simp only [] at h
              obtain ⟨e5, l5, hfc5, ll5, hb5⟩ := readRecordsAux_spec schema fc rc r4 records r5 h5 hb4
              by_cases hsb : sbs ≤ r5.length
              · rw [if_pos hsb] at h
                simp only [Except.ok.injEq] at h
                subst h
                simp only [DBCFile.mk.injEq] at hlen ⊢
                have hmul : rc * fc * 4 = 4 * fc * rc := by
                  rw [Nat.mul_comm rc fc, Nat.mul_comm (fc * rc) 4, Nat.mul_assoc]
                have hbl : (m0 :: m1 :: m2 :: m3 :: afterMagic).length =
                    4 + afterMagic.length := by simp only [List.length_cons]; omega
                have hr5 : r5.length = sbs := by
                  simp only [hbl] at hlen
                  omega
                have htake : r5.take sbs = r5 := by
                  rw [← hr5]
                  exact List.take_length r5
                simp only [dbc_write, encodeHeader, htake, List.append_assoc]
                rw [e5, e4, e3, e2, e1]
                rfl
              · rw [if_neg hsb] at h
                simp at h

def c1wSchema : List (String × FieldType) :=
  [("id", FieldType.uint32), ("name", FieldType.string)]

def c1wBytes : List Nat :=
  [87, 68, 66, 67] ++ encodeU32 1 ++ encodeU32 2 ++ encodeU32 8 ++ encodeU32 4 ++
    encodeU32 7 ++ encodeU32 0 ++ [97, 98, 99, 0]

def c1wFile : DBCFile :=
  ⟨⟨[87, 68, 66, 67], 1, 2, 8, 4⟩,
    [[⟨FieldType.uint32, 7⟩, ⟨FieldType.string, 0⟩]], [97, 98, 99, 0], c1wSchema⟩

/-- C1 witness: the hypotheses of `c1_roundtrip` hold at a concrete
stream, and the round trip reproduces it. -/
theorem c1_roundtrip_witness : dbc_write c1wFile = c1wBytes :=
  c1_roundtrip c1wSchema c1wBytes c1wFile (by rfl) (by decide) (by rfl)

/-! ### C2: missing or malformed magic bytes -/

def c2Schema : List (String × FieldType) := [("id", FieldType.uint32)]

def c2BadBytes : List Nat :=
  [0, 0, 0, 0] ++ encodeU32 1 ++ encodeU32 1 ++ encodeU32 0 ++ encodeU32 0 ++ encodeU32 5

/-- C2 counterexample: a stream whose four leading magic bytes are all
zero — no magic present at all — decodes successfully into a populated
table; `dbc_read` does not fail on absent or malformed magic. -/
theorem c2_counterexample :
    dbc_read c2Schema c2BadBytes =
      Except.ok ⟨⟨[0, 0, 0, 0], 1, 1, 0, 0⟩, [[⟨FieldType.uint32, 5⟩]], [], c2Schema⟩ := by
  rfl

/-- C2 amended: `dbc_read` performs no validation of the magic bytes at
all — replacing the four leading bytes of any successfully decoded
stream by arbitrary other bytes still decodes successfully, changing
only the recorded magic. Decode failures are `IOError` on truncation
(or `TypeError` on a schema/`field_count` mismatch), never a magic
check. -/
theorem c2_magic_ignored (schema : List (String × FieldType))
    (m0 m1 m2 m3 n0 n1 n2 n3 : Nat) (rest : List Nat) (t : DBCFile)
    (h : dbc_read schema (m0 :: m1 :: m2 :: m3 :: rest) = Except.ok t) :
    dbc_read schema (n0 :: n1 :: n2 :: n3 :: rest) =
      Except.ok { t with header := { t.header with magic := [n0, n1, n2, n3] } } := by
  simp only [dbc_read] at h ⊢
  cases h1 : readU32 rest with
  | none => rw [h1] at h; simp at h
  | some p1 =>
    obtain ⟨rc, r1⟩ := p1
    rw [h1] at h
    simp only [] at h ⊢
    cases h2 : readU32 r1 with
    | none => rw [h2] at h; simp at h
    | some p2 =>
      obtain ⟨fc, r2⟩ := p2
      rw [h2] at h
      simp only [] at h ⊢
      cases h3 : readU32 r2 with
      | none => rw [h3] at h; simp at h
      | some p3 =>
        obtain ⟨rsz, r3⟩ := p3
        rw [h3] at h
        simp only [] at h ⊢
        cases h4 : readU32 r3 with
        | none => rw [h4] at h; simp at h
        | some p4 =>
          obtain ⟨sbs, r4⟩ := p4
          rw [h4] at h
          simp only [] at h ⊢
          cases h5 : readRecordsAux schema fc rc r4 with
          | error e => rw [h5] at h; simp at h
          | ok p5 =>
            obtain ⟨records, r5⟩ := p5
            rw [h5] at h
            simp only [] at h ⊢
            by_cases hsb : sbs ≤ r5.length
            · rw [if_pos hsb] at h ⊢
              simp only [Except.ok.injEq] at h ⊢
              subst h
              rfl
            · rw [if_neg hsb] at h
              simp at h

/-- C2 amended witness: a concrete stream decoded with one magic and
re-decoded with a zeroed magic. -/
theorem c2_magic_ignored_witness :
    dbc_read c2Schema (1 :: 2 :: 3 :: 4 :: (encodeU32 1 ++ encodeU32 1 ++ encodeU32 4 ++
        encodeU32 0 ++ encodeU32 5)) =
      Except.ok ⟨⟨[1, 2, 3, 4], 1, 1, 4, 0⟩, [[⟨FieldType.uint32, 5⟩]], [], c2Schema⟩ :=
  c2_magic_ignored c2Schema 9 9 9 9 1 2 3 4
    (encodeU32 1 ++ encodeU32 1 ++ encodeU32 4 ++ encodeU32 0 ++ encodeU32 5)
    ⟨⟨[9, 9, 9, 9], 1, 1, 4, 0⟩, [[⟨FieldType.uint32, 5⟩]], [], c2Schema⟩ (by rfl)

/-! ### C3: out-of-bounds StringRef offsets are not caught -/

def c3File : DBCFile :=
  ⟨⟨[87, 68, 66, 67], 1, 1, 4, 4⟩, [[⟨FieldType.string, 100⟩]],
    [97, 98, 99, 0], [("name", FieldType.string)]⟩

/-- C3: a record whose StringRef field holds offset 100 while
`string_block_size` is 4 — far past the block — makes `get_record` and
`find_by` succeed anyway: `field_value_to_ruby` dereferences
`string_block[offset]` with no bounds check (an out-of-bounds read in
the C, rendered by the model as the empty string), and the extension has
no string-resolution error to raise (`DBCError` lists every `rb_raise`
site; none is a resolution failure). -/
theorem c3_no_bounds_check :
    c3File.header.string_block_size = 4 ∧
    ((c3File.records.getD 0 []).getD 0 zeroFV).bits = 100 ∧
    dbc_get_record c3File 0 = Except.ok [(some "name", RValue.str [])] ∧
    dbc_find_by c3File "name" (RValue.str []) =
      Except.ok [[(some "name", RValue.str [])]] :=
  ⟨rfl, rfl, by rfl, by rfl⟩

/-! ### C4: update_fields applies a batch pair by pair, not atomically -/

def c4File : DBCFile :=
  ⟨⟨[87, 68, 66, 67], 1, 2, 8, 0⟩,
    [[⟨FieldType.uint32, 5⟩, ⟨FieldType.uint32, 6⟩]], [],
    [("a", FieldType.uint32), ("b", FieldType.uint32)]⟩

/-- C4 counterexample: the batch {a: 1, zzz: 2} on record 0 raises
(zzz is not a schema field), yet field a has already been overwritten —
an invalid name in the mapping does not protect the record. -/
theorem c4_counterexample :
    (dbc_update_record_multi c4File 0 [("a", RValue.int 1), ("zzz", RValue.int 2)]).2 =
      some (DBCError.argError "Invalid field name") ∧
    (dbc_update_record_multi c4File 0 [("a", RValue.int 1), ("zzz", RValue.int 2)]).1.records =
      [[⟨FieldType.uint32, 1⟩, ⟨FieldType.uint32, 6⟩]] ∧
    c4File.records ≠ [[⟨FieldType.uint32, 1⟩, ⟨FieldType.uint32, 6⟩]] :=
  ⟨by rfl, by rfl, by decide⟩

/-- An update pair the multi-update loop accepts: a schema field name at
a position inside `field_count`, with a value that coerces to the
declared type. -/
def goodUpdate (t : DBCFile) (p : String × RValue) : Prop :=
  ∃ fi ty fv, findFieldIdx t.field_definitions p.1 = some fi ∧
    fi < t.header.field_count ∧
    lookupFieldType t.field_definitions p.1 = some ty ∧
    ruby_to_field_value p.2 ty = Except.ok fv

/-- A batch of valid pairs runs to completion without raising. -/
theorem updMultiLoop_good_none :
    ∀ (good : List (String × RValue)) (t : DBCFile) (idx : Nat),
      (∀ p ∈ good, goodUpdate t p) → (updMultiLoop t idx good).2 = none
  | [], _, _, _ => rfl
  | (key, value) :: good, t, idx, hgood => by
    obtain ⟨fi, ty, fv, hfind, hfc, hty, hco⟩ := hgood (key, value) (by simp)
    simp only [updMultiLoop, hfind, if_neg (by omega : ¬t.header.field_count ≤ fi), hty, hco]
    exact updMultiLoop_good_none good _ idx (fun p hp => hgood p (by simp [hp]))

/-- A batch made of a valid prefix, an invalid pair and an arbitrary
tail applies exactly the valid prefix and then raises. -/
theorem updMultiLoop_partial :
    ∀ (good : List (String × RValue)) (t : DBCFile) (idx : Nat) (k : String)
      (v : RValue) (rest : List (String × RValue)),
      (∀ p ∈ good, goodUpdate t p) →
      (∀ fi, findFieldIdx t.field_definitions k = some fi → t.header.field_count ≤ fi) →
      updMultiLoop t idx (good ++ (k, v) :: rest) =
        ((updMultiLoop t idx good).1, some (DBCError.argError "Invalid field name"))
  | [], t, idx, k, v, rest, _, hbad => by
    simp only [List.nil_append, updMultiLoop]
    cases hk : findFieldIdx t.field_definitions k with
    | none => rfl
    | some fi => simp only [if_pos (hbad fi hk)]
  | (key, value) :: good, t, idx, k, v, rest, hgood, hbad => by
    obtain ⟨fi, ty, fv, hfind, hfc, hty, hco⟩ := hgood (key, value) (by simp)
    simp only [List.cons_append, updMultiLoop, hfind,
      if_neg (by omega : ¬t.header.field_count ≤ fi), hty, hco]
    exact updMultiLoop_partial good _ idx k v rest
      (fun p hp => hgood p (by simp [hp])) hbad

/-- C4 amended: `update_record_multi` applies the mapping pair by pair
in mapping order; when a pair's field name is invalid the call raises
`ArgumentError` at that pair, with every earlier pair already applied
and the invalid pair and everything after it not applied. It is
all-or-nothing only when the invalid name happens to come first. (When
every name is valid, the whole batch is applied and the call returns
without error.) -/
theorem c4_amended (t : DBCFile) (i : Int) (good : List (String × RValue))
    (k : String) (v : RValue) (rest : List (String × RValue))
    (hi0 : 0 ≤ i) (hi : i.toNat < t.header.record_count)
    (hgood : ∀ p ∈ good, goodUpdate t p)
    (hbad : ∀ fi, findFieldIdx t.field_definitions k = some fi → t.header.field_count ≤ fi) :
    dbc_update_record_multi t i (good ++ (k, v) :: rest) =
      ((dbc_update_record_multi t i good).1, some (DBCError.argError "Invalid field name")) ∧
    (dbc_update_record_multi t i good).2 = none := by
  have hc : ¬(i < 0 ∨ t.header.record_count ≤ i.toNat) := by omega
  constructor
  · simp only [dbc_update_record_multi, if_neg hc]
    exact updMultiLoop_partial good t i.toNat k v rest hgood hbad
  · simp only [dbc_update_record_multi, if_neg hc]
    exact updMultiLoop_good_none good t i.toNat hgood

/-- C4 amended witness: the concrete batch {a: 1, zzz: 2} on `c4File`
equals "apply {a: 1}, then raise". -/
theorem c4_amended_witness :
    dbc_update_record_multi c4File 0 [("a", RValue.int 1), ("zzz", RValue.int 2)] =
      ((dbc_update_record_multi c4File 0 [("a", RValue.int 1)]).1,
        some (DBCError.argError "Invalid field name")) ∧
    (dbc_update_record_multi c4File 0 [("a", RValue.int 1)]).2 = none :=
  c4_amended c4File 0 [("a", RValue.int 1)] "zzz" (RValue.int 2) []
    (by decide) (by decide)
    (by
      intro p hp
      simp only [List.mem_singleton] at hp
      subst hp
      exact ⟨0, FieldType.uint32, ⟨FieldType.uint32, 1⟩, by rfl, by decide, by rfl, by rfl⟩)
    (by
      intro fi h
      rw [show findFieldIdx c4File.field_definitions "zzz" = none from by rfl] at h
      cases h)

/-! ### C5: create_record_with_values ignores unknown field names -/

def c5File : DBCFile :=
  ⟨⟨[87, 68, 66, 67], 0, 1, 4, 0⟩, [], [], [("a", FieldType.uint32)]⟩

/-- C5 counterexample: a mapping containing the unknown field name "zzz"
does not fail — the record is created and "zzz" is silently ignored,
because the loop iterates over schema fields and never inspects the
mapping's own keys. -/
theorem c5_counterexample :
    dbc_create_record_with_values c5File [("a", RValue.int 1), ("zzz", RValue.int 2)] =
      ({ c5File with
          records := [[⟨FieldType.uint32, 1⟩]],
          header := { c5File.header with record_count := 1 } }, Except.ok 0) := by
  rfl

/-- Column `j` can be filled from the values mapping: the schema has a
name there, the mapping has a value under that name, and the value
coerces to the declared type. -/
def coercibleAt (schema : List (String × FieldType)) (values : List (String × RValue))
    (j : Nat) : Prop :=
  ∃ name v ty fv, fieldNameAt schema j = some name ∧ List.lookup name values = some v ∧
    lookupFieldType schema name = some ty ∧ ruby_to_field_value v ty = Except.ok fv

/-- When every requested column can be filled, the build loop succeeds. -/
theorem buildRecordAux_ok_of (schema : List (String × FieldType))
    (values : List (String × RValue)) :
    ∀ (k j : Nat), (∀ m, j ≤ m → m < j + k → coercibleAt schema values m) →
      ∃ rec, buildRecordAux schema values j k = Except.ok rec
  | 0, j, _ => ⟨[], rfl⟩
  | Nat.succ k, j, hco => by
    obtain ⟨name, v, ty, fv, hn, hv, hty, hcoe⟩ := hco j (Nat.le_refl j) (by omega)
    obtain ⟨rec, hr⟩ := buildRecordAux_ok_of schema values k (j + 1)
      (fun m h1 h2 => hco m (by omega) (by omega))
    exact ⟨fv :: rec, by simp only [buildRecordAux, hn, hv, hty, hcoe, hr]⟩

/-- When the build loop succeeds, every requested column could be
filled. -/
theorem buildRecordAux_ok_coercible (schema : List (String × FieldType))
    (values : List (String × RValue)) :
    ∀ (k j : Nat) (rec : List FieldValue),
      buildRecordAux schema values j k = Except.ok rec →
      ∀ m, j ≤ m → m < j + k → coercibleAt schema values m
  | 0, j, rec, _, m, h1, h2 => absurd h2 (by omega)
  | Nat.succ k, j, rec, h, m, h1, h2 => by
    simp only [buildRecordAux] at h
    cases hn : fieldNameAt schema j with
    | none => rw [hn] at h; simp at h
    | some name =>
      rw [hn] at h
      simp only [] at h
      cases hv : List.lookup name values with
      | none => rw [hv] at h; simp at h
      | some v =>
        rw [hv] at h
        simp only [] at h
        cases hty : lookupFieldType schema name with
        | none => rw [hty] at h; simp at h
        | some ty =>
          rw [hty] at h
          simp only [] at h
          cases hcoe : ruby_to_field_value v ty with
          | error e => rw [hcoe] at h; simp at h
          | ok fv =>
            rw [hcoe] at h
            simp only [] at h
            by_cases hm : m = j
            · subst hm
              exact ⟨name, v, ty, fv, hn, hv, hty, hcoe⟩
            · cases hrest : buildRecordAux schema values (j + 1) k with
              | error e => rw [hrest] at h; simp at h
              | ok rec2 =>
                exact buildRecordAux_ok_coercible schema values k (j + 1) rec2 hrest m
                  (by omega) (by omega)

/-- The build loop depends on the values mapping only through the
lookups of the schema field names it visits. -/
theorem buildRecordAux_congr (schema : List (String × FieldType))
    (values values2 : List (String × RValue)) :
    ∀ (k j : Nat),
      (∀ m name, j ≤ m → m < j + k → fieldNameAt schema m = some name →
        List.lookup name values = List.lookup name values2) →
      buildRecordAux schema values j k = buildRecordAux schema values2 j k
  | 0, j, _ => rfl
  | Nat.succ k, j, hl => by
    simp only [buildRecordAux]
    cases hn : fieldNameAt schema j with
    | none => rfl
    | some name =>
      simp only []
      rw [← hl j name (Nat.le_refl j) (by omega) hn]
      cases List.lookup name values with
      | none => rfl
      | some v =>
        simp only []
        cases lookupFieldType schema name with
        | none => rfl
        | some ty =>
          simp only []
          cases ruby_to_field_value v ty with
          | error e => rfl
          | ok fv =>
            simp only []
            rw [buildRecordAux_congr schema values values2 k (j + 1)
              (fun m nm h1 h2 hmn => hl m nm (by omega) (by omega) hmn)]

/-- C5 amended: `create_record_with_values` fails (with the
missing-value `ArgumentError`, or the coercion's error) exactly when
some schema column below `field_count` cannot be filled from the
mapping, and then the observable table is unchanged — no record is
appended; a mapping key that is not a schema field name is silently
ignored (the call reads the mapping only at schema field names), never
an error; on success every column is set and the new index — the old
`record_count` — is returned. -/
theorem c5_amended (t : DBCFile) (values values2 : List (String × RValue))
    (hwrap : t.header.record_count + 1 < 2 ^ 32) :
    (∀ e, (dbc_create_record_with_values t values).2 = Except.error e →
      (dbc_create_record_with_values t values).1 = t) ∧
    ((∀ j, j < t.header.field_count → coercibleAt t.field_definitions values j) →
      (dbc_create_record_with_values t values).2 = Except.ok t.header.record_count ∧
      (dbc_create_record_with_values t values).1.header.record_count =
        t.header.record_count + 1 ∧
      (dbc_create_record_with_values t values).1.records.length = t.records.length + 1) ∧
    ((∃ j, j < t.header.field_count ∧ ¬coercibleAt t.field_definitions values j) →
      ∃ e, (dbc_create_record_with_values t values).2 = Except.error e) ∧
    ((∀ j name, j < t.header.field_count → fieldNameAt t.field_definitions j = some name →
        List.lookup name values = List.lookup name values2) →
      dbc_create_record_with_values t values = dbc_create_record_with_values t values2) := by
  refine ⟨?_, ?_, ?_, ?_⟩
  · intro e he
    simp only [dbc_create_record_with_values] at he ⊢
    cases hb : buildRecordAux t.field_definitions values 0 t.header.field_count with
    | error e2 => rfl
    | ok rec => rw [hb] at he; simp at he
  · intro hco
    obtain ⟨rec, hr⟩ := buildRecordAux_ok_of t.field_definitions values
      t.header.field_count 0 (fun m _ h2 => hco m (by omega))
    simp only [dbc_create_record_with_values, hr]
    refine ⟨by simp only [Except.ok.injEq]; omega, ?_, by simp⟩
    show (t.header.record_count + 1) % 2 ^ 32 = t.header.record_count + 1
    omega
  · intro hex
    cases hb : buildRecordAux t.field_definitions values 0 t.header.field_count with
    | error e => exact ⟨e, by simp only [dbc_create_record_with_values, hb]⟩
    | ok rec =>
      obtain ⟨j, hj, hnc⟩ := hex
      exact absurd (buildRecordAux_ok_coercible t.field_definitions values
        t.header.field_count 0 rec hb j (by omega) (by omega)) hnc
  · intro hl
    simp only [dbc_create_record_with_values]
    rw [buildRecordAux_congr t.field_definitions values values2 t.header.field_count 0
      (fun m nm _ h2 hmn => hl m nm (by omega) hmn)]

/-- C5 amended witness: filling the one-column schema from
{a: 1} succeeds returning index 0, and adding the unknown key
"zzz" changes nothing about the call's outcome. -/
theorem c5_amended_witness :
    (dbc_create_record_with_values c5File [("a", RValue.int 1)]).2 = Except.ok 0 ∧
    dbc_create_record_with_values c5File [("a", RValue.int 1)] =
      dbc_create_record_with_values c5File [("a", RValue.int 1), ("zzz", RValue.int 2)] := by
  have hco : ∀ j, j < c5File.header.field_count →
      coercibleAt c5File.field_definitions [("a", RValue.int 1)] j := by
    intro j hj
    have hj0 : j = 0 := by
      have : c5File.header.field_count = 1 := rfl
      omega
    subst hj0
    exact ⟨"a", RValue.int 1, FieldType.uint32, ⟨FieldType.uint32, 1⟩,
      by rfl, by rfl, by rfl, by rfl⟩
  have hl : ∀ j name, j < c5File.header.field_count →
      fieldNameAt c5File.field_definitions j = some name →
      List.lookup name [("a", RValue.int 1)] =
        List.lookup name [("a", RValue.int 1), ("zzz", RValue.int 2)] := by
    intro j name hj hn
    have hj0 : j = 0 := by
      have : c5File.header.field_count = 1 := rfl
      omega
    subst hj0
    rw [show fieldNameAt c5File.field_definitions 0 = some "a" from rfl] at hn
    injection hn with hname
    subst hname
    rfl
  exact ⟨((c5_amended c5File [("a", RValue.int 1)] [] (by decide)).2.1 hco).1,
    (c5_amended c5File [("a", RValue.int 1)]
      [("a", RValue.int 1), ("zzz", RValue.int 2)] (by decide)).2.2.2 hl⟩

/-! ### C6: delete shifts later records down, create appends -/

/-- C6: for a valid index, `delete_record` succeeds, decrements
`record_count` by exactly 1 and leaves the remaining records in their
relative order (the result is the prefix before the index followed by
the suffix after it); `create_record` increments `record_count` by
exactly 1 (the hypothesis keeps the uint32 increment below the wrap, as
any allocatable table is) and returns the new record's index — the old
`record_count` — having appended a zeroed record at the end. -/
theorem c6_create_delete (t : DBCFile) (i : Int)
    (hi0 : 0 ≤ i) (hi : i.toNat < t.header.record_count)
    (hwrap : t.header.record_count + 1 < 2 ^ 32) :
    (dbc_delete_record t i).2 = none ∧
    (dbc_delete_record t i).1.header.record_count = t.header.record_count - 1 ∧
    t.header.record_count ≠ 0 ∧
    (dbc_delete_record t i).1.records =
      t.records.take i.toNat ++ t.records.drop (i.toNat + 1) ∧
    (dbc_create_record t).1.header.record_count = t.header.record_count + 1 ∧
    (dbc_create_record t).2 = t.header.record_count ∧
    (dbc_create_record t).1.records =
      t.records ++ [List.replicate t.header.field_count zeroFV] := by
  have hc : ¬(i < 0 ∨ t.header.record_count ≤ i.toNat) := by omega
  refine ⟨?_, ?_, by omega, ?_, ?_, ?_, rfl⟩
  · simp only [dbc_delete_record, if_neg hc]
  · simp only [dbc_delete_record, if_neg hc]
  · simp only [dbc_delete_record, if_neg hc]
    exact List.eraseIdx_eq_take_drop_succ t.records i.toNat
  · show (t.header.record_count + 1) % 2 ^ 32 = t.header.record_count + 1
    omega
  · show ((t.header.record_count + 1) % 2 ^ 32 + 2 ^ 32 - 1) % 2 ^ 32 = t.header.record_count
    omega

def c6File : DBCFile :=
  ⟨⟨[87, 68, 66, 67], 2, 1, 4, 0⟩,
    [[⟨FieldType.uint32, 10⟩], [⟨FieldType.uint32, 20⟩]], [], [("a", FieldType.uint32)]⟩

/-- C6 witness: deleting record 0 of a two-record table keeps record 1,
and creating a record returns the old count. -/
theorem c6_create_delete_witness :
    (dbc_delete_record c6File 0).1.records =
      c6File.records.take 0 ++ c6File.records.drop 1 ∧
    (dbc_create_record c6File).2 = c6File.header.record_count := by
  have h := c6_create_delete c6File 0 (by decide) (by decide) (by decide)
  exact ⟨h.2.2.2.1, h.2.2.2.2.2.1⟩

/-! ### C7: update_field then get_record -/

theorem getD_set_self {α : Type} (l : List α) (i : Nat) (a d : α) (h : i < l.length) :
    (l.set i a).getD i d = a := by
  simp [List.getD, List.getElem?_set_self, h]

theorem getD_set_ne {α : Type} (l : List α) (i j : Nat) (a d : α) (h : i ≠ j) :
    (l.set i a).getD j d = l.getD j d := by
  simp [List.getD, List.getElem?_set_ne h]

/-- Overwriting one in-bounds cell changes exactly one entry of the
record's result hash. -/
theorem recordToHash_set (schema : List (String × FieldType)) (fc : Nat)
    (rec : List FieldValue) (block : List Nat) (fi : Nat) (fv : FieldValue)
    (hfi : fi < fc) (hlen : fi < rec.length) :
    recordToHash schema fc (rec.set fi fv) block =
      (recordToHash schema fc rec block).set fi
        (fieldNameAt schema fi, field_value_to_ruby fv block) := by
  apply List.ext_getElem?
  intro n
  simp only [recordToHash, List.getElem?_set, List.getElem?_map, List.length_map,
    List.length_range]
  by_cases hn : fi = n
  · subst hn
    rw [if_pos rfl, if_pos hfi, List.getElem?_range hfi]
    simp only [Option.map_some']
    rw [getD_set_self rec fi fv zeroFV hlen]
  · rw [if_neg hn]
    by_cases hn2 : n < fc
    · rw [List.getElem?_range hn2]
      simp only [Option.map_some']
      rw [getD_set_ne rec fi n fv zeroFV hn]
    · rw [show (List.range fc)[n]? = none from List.getElem?_eq_none (by simpa using hn2)]
      rfl

def c7File : DBCFile :=
  ⟨⟨[87, 68, 66, 67], 1, 1, 4, 4⟩, [[⟨FieldType.string, 9⟩]],
    [97, 98, 99, 0], [("name", FieldType.string)]⟩

/-- C7 counterexample: on a StringRef field, `update_field` with the
(coercible) offset value 0 succeeds, but `get_record` then returns the
resolved text "abc" at that offset — not the value 0 coerced to the
field's declared on-disk type (a `uint32` offset). The claim fails for
StringRef fields. -/
theorem c7_counterexample :
    (dbc_update_record c7File 0 "name" (RValue.int 0)).2 = none ∧
    dbc_get_record (dbc_update_record c7File 0 "name" (RValue.int 0)).1 0 =
      Except.ok [(some "name", RValue.str [97, 98, 99])] ∧
    RValue.str [97, 98, 99] ≠ RValue.int 0 :=
  ⟨by rfl, by rfl, by decide⟩

/-- C7 amended: for a valid index, a schema field `f` (first occurrence
at position `fi` inside `field_count`) and a coercible value,
`update_field` succeeds; `get_record` on that record afterwards differs
from before in exactly the entry for `f`, which holds the stored cell
converted back out: `v` itself when `v` is a nonnegative Integer on a
uint32 field, an Integer on an int32 field, or a Float on a float
field; a negative Integer on a uint32 field reads back wrapped mod
`2^32` and cross-kind numeric values read back truncated (Float into an
integer field) or rounded (Integer into the float field); on a
StringRef field `get_record` returns the string-block text resolved at
the stored offset — the offset being `v` itself for a nonnegative
Integer `v` — never `v`. `get_record` on every other index is
unchanged. -/
theorem c7_amended (t : DBCFile) (i : Int) (f : String) (v : RValue)
    (fi : Nat) (ty : FieldType) (fv : FieldValue)
    (hi0 : 0 ≤ i) (hi : i.toNat < t.header.record_count)
    (hfind : findFieldIdx t.field_definitions f = some fi)
    (hfc : fi < t.header.field_count)
    (hty : lookupFieldType t.field_definitions f = some ty)
    (hco : ruby_to_field_value v ty = Except.ok fv)
    (hcount : t.records.length = t.header.record_count)
    (hreclen : (t.records.getD i.toNat []).length = t.header.field_count) :
    (dbc_update_record t i f v).2 = none ∧
    (∀ oldHash, dbc_get_record t i = Except.ok oldHash →
      dbc_get_record (dbc_update_record t i f v).1 i =
        Except.ok (oldHash.set fi (fieldNameAt t.field_definitions fi,
          field_value_to_ruby fv t.string_block))) ∧
    (∀ j : Int, j ≠ i → dbc_get_record (dbc_update_record t i f v).1 j =
      dbc_get_record t j) ∧
    (∀ n : Int, ty = FieldType.uint32 → v = RValue.int n → 0 ≤ n →
      field_value_to_ruby fv t.string_block = v) ∧
    (∀ n : Int, ty = FieldType.int32 → v = RValue.int n →
      field_value_to_ruby fv t.string_block = v) ∧
    (∀ b : Nat, ty = FieldType.float → v = RValue.flt b →
      field_value_to_ruby fv t.string_block = v) ∧
    (ty = FieldType.string → ∃ off : Nat, fv = FieldValue.mk FieldType.string off ∧
      field_value_to_ruby fv t.string_block = RValue.str (cString t.string_block off) ∧
      ∀ n : Int, v = RValue.int n → 0 ≤ n → off = n.toNat) := by
  have hc : ¬(i < 0 ∨ t.header.record_count ≤ i.toNat ∨ t.header.field_count ≤ fi) := by
    omega
  have ht2 : dbc_update_record t i f v =
      ({ t with records := setCell t.records i.toNat fi fv }, none) := by
    simp only [dbc_update_record, hfind, if_neg hc, hty, hco]
  have hic : ¬(i < 0 ∨ t.header.record_count ≤ i.toNat) := by omega
  refine ⟨by rw [ht2], ?_, ?_, ?_, ?_, ?_, ?_⟩
  · intro oldHash hold
    simp only [dbc_get_record, if_neg hic, Except.ok.injEq] at hold
    rw [ht2]
    simp only [dbc_get_record, if_neg hic, Except.ok.injEq]
    have hrec : (setCell t.records i.toNat fi fv).getD i.toNat [] =
        (t.records.getD i.toNat []).set fi fv := by
      unfold setCell
      exact getD_set_self t.records i.toNat _ [] (by omega)
    rw [hrec, recordToHash_set t.field_definitions t.header.field_count
      (t.records.getD i.toNat []) t.string_block fi fv hfc (by omega), ← hold]
  · intro j hj
    rw [ht2]
    by_cases hjc : j < 0 ∨ t.header.record_count ≤ j.toNat
    · simp only [dbc_get_record, if_pos hjc]
    · simp only [dbc_get_record, if_neg hjc]
      have hne : i.toNat ≠ j.toNat := by omega
      have hrec : (setCell t.records i.toNat fi fv).getD j.toNat [] =
          t.records.getD j.toNat [] := by
        unfold setCell
        exact getD_set_ne t.records i.toNat j.toNat _ [] hne
      rw [hrec]
  · intro n htyu hv hn
    subst htyu
    subst hv
    simp only [ruby_to_field_value, num2uint] at hco
    by_cases hr : -(2 ^ 31) ≤ n ∧ n < 2 ^ 32
    · rw [if_pos hr] at hco
      simp only [Except.ok.injEq] at hco
      subst hco
      simp only [field_value_to_ruby, RValue.int.injEq]
      omega
    · rw [if_neg hr] at hco
      simp at hco
  · intro n htyi hv
    subst htyi
    subst hv
    simp only [ruby_to_field_value, num2int] at hco
    by_cases hr : -(2 ^ 31) ≤ n ∧ n < 2 ^ 31
    · rw [if_pos hr] at hco
      simp only [Except.ok.injEq] at hco
      subst hco
      simp only [field_value_to_ruby, toInt32, RValue.int.injEq]
      have hmod : ((n % 2 ^ 32).toNat : Int) = n % 2 ^ 32 :=
        Int.toNat_of_nonneg (Int.emod_nonneg n (by decide))
      split
      · omega
      · omega
    · rw [if_neg hr] at hco
      simp at hco
  · intro b htyf hv
    subst htyf
    subst hv
    simp only [ruby_to_field_value, num2fltbits, Except.ok.injEq] at hco
    subst hco
    rfl
  · intro hstr
    subst hstr
    cases v with
    | int n =>
      simp only [ruby_to_field_value, num2uint] at hco
      by_cases hr : -(2 ^ 31) ≤ n ∧ n < 2 ^ 32
      · rw [if_pos hr] at hco
        simp only [Except.ok.injEq] at hco
        subst hco
        refine ⟨(n % 2 ^ 32).toNat, rfl, ?_, ?_⟩
        · rfl
        · intro n2 hveq hn2
          injection hveq with he
          subst he
          omega
      · rw [if_neg hr] at hco
        simp at hco
    | flt b =>
      simp only [ruby_to_field_value, num2uint] at hco
      cases htr : truncFloat32 b with
      | none =>
        rw [htr] at hco
        simp at hco
      | some n =>
        rw [htr] at hco
        simp only [] at hco
        by_cases hr : -(2 ^ 31) ≤ n ∧ n < 2 ^ 32
        · rw [if_pos hr] at hco
          simp only [Except.ok.injEq] at hco
          subst hco
          refine ⟨(n % 2 ^ 32).toNat, rfl, ?_, ?_⟩
          · rfl
          · intro n2 hveq hn2
            simp at hveq
        · rw [if_neg hr] at hco
          simp at hco
    | str s => simp [ruby_to_field_value, num2uint] at hco

def c7wFile : DBCFile :=
  ⟨⟨[87, 68, 66, 67], 2, 1, 4, 0⟩,
    [[⟨FieldType.uint32, 1⟩], [⟨FieldType.uint32, 2⟩]], [], [("id", FieldType.uint32)]⟩

/-- C7 amended witness: updating field "id" of record 0 to 7 succeeds,
the updated hash is the old hash with the "id" entry replaced, the new
entry reads back as 7 itself, and record 1 reads back unchanged. -/
theorem c7_amended_witness :
    (dbc_update_record c7wFile 0 "id" (RValue.int 7)).2 = none ∧
    dbc_get_record (dbc_update_record c7wFile 0 "id" (RValue.int 7)).1 0 =
      Except.ok ([(some "id", RValue.int 1)].set 0 (fieldNameAt c7wFile.field_definitions 0,
        field_value_to_ruby ⟨FieldType.uint32, 7⟩ c7wFile.string_block)) ∧
    dbc_get_record (dbc_update_record c7wFile 0 "id" (RValue.int 7)).1 1 =
      dbc_get_record c7wFile 1 ∧
    field_value_to_ruby ⟨FieldType.uint32, 7⟩ c7wFile.string_block = RValue.int 7 := by
  have h := c7_amended c7wFile 0 "id" (RValue.int 7) 0 FieldType.uint32
    ⟨FieldType.uint32, 7⟩ (by decide) (by decide) (by rfl) (by decide) (by rfl) (by rfl)
    (by rfl) (by rfl)
  exact ⟨h.1, h.2.1 [(some "id", RValue.int 1)] (by rfl), h.2.2.1 1 (by decide),
    h.2.2.2.1 7 rfl rfl (by decide)⟩

/-! ### C8: find_by scans on the resolved value -/

/-- The scan loop of `dbc_find_by` equals filtering the records on the
converted (string-resolved) value at the field position, then rendering
each kept record as its hash, preserving table order. -/
theorem findByLoop_eq (dbc : DBCFile) (fi : Nat) (value : RValue)
    (rs : List (List FieldValue)) :
    findByLoop dbc fi value rs =
      (rs.filter (fun rec =>
        decide (field_value_to_ruby (rec.getD fi zeroFV) dbc.string_block = value))).map
        (fun rec => recordToHash dbc.field_definitions dbc.header.field_count rec
          dbc.string_block) := by
  induction rs with
  | nil => rfl
  | cons rec rest ih =>
    by_cases hm : field_value_to_ruby (rec.getD fi zeroFV) dbc.string_block = value
    · simp only [findByLoop, List.filter_cons, decide_eq_true_eq, if_pos hm,
        List.map_cons, ih]
    · simp only [findByLoop, List.filter_cons, decide_eq_true_eq, if_neg hm, ih]

/-- C8: when `f` is a schema field (at a position inside `field_count`),
`find_by` returns exactly the records whose converted value at `f` —
for StringRef fields the text resolved through the string block, not
the raw offset — equals the probe value, each rendered as its full
hash, in table order; an empty list (not an error) when none match;
and `ArgumentError` ("Invalid field name") when `f` is not a schema
field or sits at or past `field_count`. -/
theorem c8_find_by (t : DBCFile) (f : String) (v : RValue) :
    (∀ fi, findFieldIdx t.field_definitions f = some fi → fi < t.header.field_count →
      dbc_find_by t f v = Except.ok
        ((t.records.filter (fun rec =>
            decide (field_value_to_ruby (rec.getD fi zeroFV) t.string_block = v))).map
          (fun rec => recordToHash t.field_definitions t.header.field_count rec
            t.string_block))) ∧
    (∀ fi, findFieldIdx t.field_definitions f = some fi → fi < t.header.field_count →
      (∀ rec ∈ t.records, field_value_to_ruby (rec.getD fi zeroFV) t.string_block ≠ v) →
      dbc_find_by t f v = Except.ok []) ∧
    (findFieldIdx t.field_definitions f = none →
      dbc_find_by t f v = Except.error (DBCError.argError "Invalid field name")) ∧
    (∀ fi, findFieldIdx t.field_definitions f = some fi → t.header.field_count ≤ fi →
      dbc_find_by t f v = Except.error (DBCError.argError "Invalid field name")) := by
  refine ⟨?_, ?_, ?_, ?_⟩
  · intro fi hf hfc
    simp only [dbc_find_by, hf, if_neg (by omega : ¬t.header.field_count ≤ fi)]
    rw [findByLoop_eq]
  · intro fi hf hfc hnone
    simp only [dbc_find_by, hf, if_neg (by omega : ¬t.header.field_count ≤ fi)]
    rw [findByLoop_eq]
    have hfil : t.records.filter (fun rec =>
        decide (field_value_to_ruby (rec.getD fi zeroFV) t.string_block = v)) = [] := by
      rw [List.filter_eq_nil_iff]
      intro a ha
      simpa using hnone a ha
    rw [hfil]
    rfl
  · intro hnone
    simp only [dbc_find_by, hnone]
  · intro fi hf hge
    simp only [dbc_find_by, hf, if_pos hge]

def c8File : DBCFile :=
  ⟨⟨[87, 68, 66, 67], 2, 1, 4, 7⟩,
    [[⟨FieldType.string, 0⟩], [⟨FieldType.string, 4⟩]],
    [97, 98, 99, 0, 120, 121, 0], [("name", FieldType.string)]⟩

/-- C8 witness: searching the StringRef field by resolved text finds the
matching record, and an unknown field name raises. -/
theorem c8_find_by_witness :
    dbc_find_by c8File "name" (RValue.str [120, 121]) = Except.ok
      ((c8File.records.filter (fun rec =>
          decide (field_value_to_ruby (rec.getD 0 zeroFV) c8File.string_block =
            RValue.str [120, 121]))).map
        (fun rec => recordToHash c8File.field_definitions c8File.header.field_count rec
          c8File.string_block)) ∧
    dbc_find_by c8File "oops" (RValue.int 0) =
      Except.error (DBCError.argError "Invalid field name") :=
  ⟨(c8_find_by c8File "name" (RValue.str [120, 121])).1 0 (by rfl) (by decide),
    (c8_find_by c8File "oops" (RValue.int 0)).2.2.1 (by rfl)⟩

/-! ### C9: the written header is the stored header, not a recomputation -/

def c9Schema : List (String × FieldType) := [("a", FieldType.uint32)]

def c9Bytes : List Nat :=
  [87, 68, 66, 67] ++ encodeU32 1 ++ encodeU32 1 ++ encodeU32 7 ++ encodeU32 0 ++
    encodeU32 42

def c9File : DBCFile :=
  ⟨⟨[87, 68, 66, 67], 1, 1, 7, 0⟩, [[⟨FieldType.uint32, 42⟩]], [], c9Schema⟩

/-- C9 counterexample: a decoded stream whose stored `record_size` is 7
with a one-field schema (so `4 * field_count = 4`) is encoded with
`record_size` 7 again — bytes 12..15 of the output are the stale stored
value, not `4 * field_count`. -/
theorem c9_counterexample :
    dbc_read c9Schema c9Bytes = Except.ok c9File ∧
    ((dbc_write c9File).drop 12).take 4 = encodeU32 7 ∧
    4 * c9File.header.field_count = 4 ∧
    encodeU32 7 ≠ encodeU32 (4 * c9File.header.field_count) :=
  ⟨by rfl, by rfl, rfl, by decide⟩

/-- C9 amended: `dbc_write` emits the stored header verbatim: the first
20 output bytes are the stored magic, record_count, field_count,
record_size and string_block_size. Under the invariant that the stored
`record_count` equals the number of live records (every mutation
preserves it, see C10), the emitted record_count therefore equals the
live record count — but `record_size` is emitted as stored, never
recomputed as `4 * field_count` from the schema. -/
theorem c9_amended (t : DBCFile) (hm : t.header.magic.length = 4)
    (hsync : t.header.record_count = t.records.length) :
    (dbc_write t).take 20 =
      t.header.magic ++ encodeU32 t.records.length ++ encodeU32 t.header.field_count ++
        encodeU32 t.header.record_size ++ encodeU32 t.header.string_block_size := by
  have hlen : (encodeHeader t.header).length = 20 := by
    simp [encodeHeader, encodeU32, hm]
  have hsplit : dbc_write t =
      encodeHeader t.header ++ (t.records.flatMap writeCells ++ t.string_block) := by
    simp [dbc_write, List.append_assoc]
  rw [hsplit, ← hlen, List.take_left (encodeHeader t.header) _, encodeHeader, hsync]

/-- C9 amended witness: the first 20 bytes written for a concrete table
are its stored header with the live record count. -/
theorem c9_amended_witness :
    (dbc_write c9File).take 20 =
      c9File.header.magic ++ encodeU32 c9File.records.length ++
        encodeU32 c9File.header.field_count ++ encodeU32 c9File.header.record_size ++
        encodeU32 c9File.header.string_block_size :=
  c9_amended c9File (by rfl) (by rfl)

/-! ### C10: mutations touch only the records and record_count -/

/-- The multi-update loop never touches the header metadata, the string
block, the field definitions or the record count. -/
theorem updMultiLoop_meta :
    ∀ (updates : List (String × RValue)) (t : DBCFile) (idx : Nat),
      metaOf (updMultiLoop t idx updates).1 = metaOf t ∧
      (updMultiLoop t idx updates).1.header.record_count = t.header.record_count
  | [], _, _ => ⟨rfl, rfl⟩
  | (key, value) :: rest, t, idx => by
    simp only [updMultiLoop]
    cases hk : findFieldIdx t.field_definitions key with
    | none => exact ⟨rfl, rfl⟩
    | some fi =>
      simp only []
      by_cases hfc : t.header.field_count ≤ fi
      · rw [if_pos hfc]
        exact ⟨rfl, rfl⟩
      · rw [if_neg hfc]
        cases hty : lookupFieldType t.field_definitions key with
        | none => exact ⟨rfl, rfl⟩
        | some ty =>
          simp only []
          cases hco : ruby_to_field_value value ty with
          | error e => exact ⟨rfl, rfl⟩
          | ok fv => exact updMultiLoop_meta rest _ idx

/-- C10: every mutation — create_record, create_record_with_values,
update_record, update_record_multi, delete_record — leaves the header's
magic, field_count, record_size and string_block_size, the string-block
bytes and the field definitions unchanged; record_count changes only by
+1 on a (successful) create and −1 on a successful delete, and is
untouched by updates and by failed calls. -/
theorem c10_mutations (t : DBCFile) (i : Int) (f : String) (v : RValue)
    (updates : List (String × RValue)) (values : List (String × RValue))
    (hwrap : t.header.record_count + 1 < 2 ^ 32) :
    metaOf (dbc_create_record t).1 = metaOf t ∧
    (dbc_create_record t).1.header.record_count = t.header.record_count + 1 ∧
    metaOf (dbc_create_record_with_values t values).1 = metaOf t ∧
    ((dbc_create_record_with_values t values).2.isOk = true →
      (dbc_create_record_with_values t values).1.header.record_count =
        t.header.record_count + 1) ∧
    ((dbc_create_record_with_values t values).2.isOk = false →
      (dbc_create_record_with_values t values).1.header.record_count =
        t.header.record_count) ∧
    metaOf (dbc_update_record t i f v).1 = metaOf t ∧
    (dbc_update_record t i f v).1.header.record_count = t.header.record_count ∧
    metaOf (dbc_update_record_multi t i updates).1 = metaOf t ∧
    (dbc_update_record_multi t i updates).1.header.record_count = t.header.record_count ∧
    metaOf (dbc_delete_record t i).1 = metaOf t ∧
    ((dbc_delete_record t i).2 = none →
      (dbc_delete_record t i).1.header.record_count = t.header.record_count - 1 ∧
      t.header.record_count ≠ 0) ∧
    ((dbc_delete_record t i).2 ≠ none →
      (dbc_delete_record t i).1.header.record_count = t.header.record_count) := by
  refine ⟨rfl, ?_, ?_, ?_, ?_, ?_, ?_, ?_, ?_, ?_, ?_, ?_⟩
  · show (t.header.record_count + 1) % 2 ^ 32 = t.header.record_count + 1
    omega
  · cases hb : buildRecordAux t.field_definitions values 0 t.header.field_count with
    | error e => simp only [dbc_create_record_with_values, hb]
    | ok rec =>
      simp only [dbc_create_record_with_values, hb]
      rfl
  · intro h
    cases hb : buildRecordAux t.field_definitions values 0 t.header.field_count with
    | error e =>
      rw [show (dbc_create_record_with_values t values).2 = Except.error e from by
        simp only [dbc_create_record_with_values, hb]] at h
      simp [Except.isOk, Except.toBool] at h
    | ok rec =>
      simp only [dbc_create_record_with_values, hb]
      show (t.header.record_count + 1) % 2 ^ 32 = t.header.record_count + 1
      omega
  · intro h
    cases hb : buildRecordAux t.field_definitions values 0 t.header.field_count with
    | error e => simp only [dbc_create_record_with_values, hb]
    | ok rec =>
      rw [show (dbc_create_record_with_values t values).2 =
          Except.ok (((t.header.record_count + 1) % 2 ^ 32 + 2 ^ 32 - 1) % 2 ^ 32) from by
        simp only [dbc_create_record_with_values, hb]] at h
      simp [Except.isOk, Except.toBool] at h
  · cases hk : findFieldIdx t.field_definitions f with
    | none => simp only [dbc_update_record, hk]
    | some fi =>
      simp only [dbc_update_record, hk]
      by_cases hc : i < 0 ∨ t.header.record_count ≤ i.toNat ∨ t.header.field_count ≤ fi
      · rw [if_pos hc]
      · rw [if_neg hc]
        cases hty : lookupFieldType t.field_definitions f with
        | none => rfl
        | some ty =>
          simp only []
          cases hco : ruby_to_field_value v ty with
          | error e => rfl
          | ok fv => rfl
  · cases hk : findFieldIdx t.field_definitions f with
    | none => simp only [dbc_update_record, hk]
    | some fi =>
      simp only [dbc_update_record, hk]
      by_cases hc : i < 0 ∨ t.header.record_count ≤ i.toNat ∨ t.header.field_count ≤ fi
      · rw [if_pos hc]
      · rw [if_neg hc]
        cases hty : lookupFieldType t.field_definitions f with
        | none => rfl
        | some ty =>
          simp only []
          cases hco : ruby_to_field_value v ty with
          | error e => rfl
          | ok fv => rfl
  · by_cases hc : i < 0 ∨ t.header.record_count ≤ i.toNat
    · simp only [dbc_update_record_multi, if_pos hc]
    · simp only [dbc_update_record_multi, if_neg hc]
      exact (updMultiLoop_meta updates t i.toNat).1
  · by_cases hc : i < 0 ∨ t.header.record_count ≤ i.toNat
    · simp only [dbc_update_record_multi, if_pos hc]
    · simp only [dbc_update_record_multi, if_neg hc]
      exact (updMultiLoop_meta updates t i.toNat).2
  · by_cases hc : i < 0 ∨ t.header.record_count ≤ i.toNat
    · simp only [dbc_delete_record, if_pos hc]
    · simp only [dbc_delete_record, if_neg hc]
      rfl
  · intro h
    by_cases hc : i < 0 ∨ t.header.record_count ≤ i.toNat
    · rw [show (dbc_delete_record t i).2 =
          some (DBCError.argError "Invalid record index") from by
        simp only [dbc_delete_record, if_pos hc]] at h
      cases h
    · refine ⟨by simp only [dbc_delete_record, if_neg hc], by omega⟩
  · intro h
    by_cases hc : i < 0 ∨ t.header.record_count ≤ i.toNat
    · simp only [dbc_delete_record, if_pos hc]
    · rw [show (dbc_delete_record t i).2 = none from by
        simp only [dbc_delete_record, if_neg hc]] at h
      exact absurd rfl h

def c10File : DBCFile :=
  ⟨⟨[87, 68, 66, 67], 1, 1, 4, 0⟩, [[⟨FieldType.uint32, 3⟩]], [], [("a", FieldType.uint32)]⟩

/-- C10 witness: the frame conditions instantiated on a concrete table
and concrete arguments. -/
theorem c10_mutations_witness :
    metaOf (dbc_create_record c10File).1 = metaOf c10File ∧
    (dbc_delete_record c10File 0).1.header.record_count =
      c10File.header.record_count - 1 ∧
    (dbc_update_record_multi c10File 0 [("a", RValue.int 9)]).1.header.record_count =
      c10File.header.record_count := by
  have h := c10_mutations c10File 0 "a" (RValue.int 9) [("a", RValue.int 9)]
    [("a", RValue.int 9)] (by decide)
  exact ⟨h.1, (h.2.2.2.2.2.2.2.2.2.2.1 (by rfl)).1, h.2.2.2.2.2.2.2.2.1⟩

end WowDBC
